import Mathlib

/-!
A shallow embedding of the decision logic of the two-controller waste sorter:

* `Vision`: the ESP32-CAM detection-filtering pipeline
  (`DetectionFilter` in `ESPv3Code_copy_20251018033055.ino`):
  validity filtering, containment removal, confidence bubble sort,
  non-max suppression, best-per-class selection, and result emission.
* `Sorter`: the Arduino voting / decision state machine (`Arduino.ino`):
  the vote tally, `recordVote`, `calculateBin`, the reply parser
  `parseResponse`, and the top-level `runStateMachine` modelled as an
  explicit step function over a machine record plus an input event.

Machine floats (`float` confidence values, accumulated sums, IoU) are
modelled as exact rationals `ℚ`; `uint8_t`/`uint32_t` counters are `ℕ`
(no reachable value in the modelled logic approaches an overflow
boundary: vote counts are capped at 3, box coordinates are pixel-sized).
The C `sqrt(dx*dx+dy*dy) < 60` distance test is modelled by the exact
equivalent integer test `dx^2 + dy^2 < 3600`.
-/

namespace Vision

/-- `struct BoundingBox` of the ESP32 sketch: axis-aligned box, class
label (a C string, modelled as `List Char`), confidence, suppression
flag.  -/
structure Box where
  x : ℕ
  y : ℕ
  width : ℕ
  height : ℕ
  confidence : ℚ
  label : List Char
  suppressed : Bool
deriving DecidableEq

/-- `#define MIN_CONFIDENCE 0.65f` -/
def MIN_CONFIDENCE : ℚ := 65 / 100

/-- `#define NMS_IOU_THRESHOLD 0.2f` -/
def NMS_IOU_THRESHOLD : ℚ := 2 / 10

/-- `#define MIN_BOX_SIZE 2` -/
def MIN_BOX_SIZE : ℕ := 2

/-- `#define SPATIAL_THRESHOLD 60` -/
def SPATIAL_THRESHOLD : ℕ := 60

/-- `BoundingBox::area()` -/
def Box.area (b : Box) : ℕ := b.width * b.height

/-- `BoundingBox::centerX()` (integer division as in C) -/
def Box.centerX (b : Box) : ℕ := b.x + b.width / 2

/-- `BoundingBox::centerY()` -/
def Box.centerY (b : Box) : ℕ := b.y + b.height / 2

/-- `BoundingBox::isValid()` -/
def Box.isValid (b : Box) : Bool :=
  MIN_BOX_SIZE ≤ b.width && MIN_BOX_SIZE ≤ b.height &&
    decide (MIN_CONFIDENCE ≤ b.confidence)

/-- `DetectionFilter::calculateIoU` -/
def calculateIoU (a b : Box) : ℚ :=
  let x1 := max a.x b.x
  let y1 := max a.y b.y
  let x2 := min (a.x + a.width) (b.x + b.width)
  let y2 := min (a.y + a.height) (b.y + b.height)
  if x2 ≤ x1 ∨ y2 ≤ y1 then 0
  else
    let intersection := (x2 - x1) * (y2 - y1)
    let unionArea := a.area + b.area - intersection
    if 0 < unionArea then (intersection : ℚ) / (unionArea : ℚ) else 0

/-- Squared center-to-center distance.  `DetectionFilter::distance`
computes `sqrt(dx*dx+dy*dy)` in floating point; for the integer inputs
used here `sqrt(n) < 60` holds exactly when `n < 3600`, so the pipeline
is modelled with the squared distance throughout. -/
def distanceSq (a b : Box) : ℤ :=
  let dx : ℤ := (a.centerX : ℤ) - (b.centerX : ℤ)
  let dy : ℤ := (a.centerY : ℤ) - (b.centerY : ℤ)
  dx * dx + dy * dy

/-- `DetectionFilter::sameClass` (`strcmp` equality of labels) -/
def sameClass (a b : Box) : Bool := a.label = b.label

/-- One bounded bubble pass: `fuel` is the number of adjacent
comparisons performed, mirroring the inner loop
`for (j = 0; j < count - i - 1; j++)` of
`DetectionFilter::sortByConfidence` (swap when
`boxes[j].confidence < boxes[j+1].confidence`, i.e. descending). -/
def bubblePass : List Box → ℕ → List Box
  | l, 0 => l
  | [], _ + 1 => []
  | [a], _ + 1 => [a]
  | a :: b :: rest, n + 1 =>
    if a.confidence < b.confidence then b :: bubblePass (a :: rest) n
    else a :: bubblePass (b :: rest) n

/-- `DetectionFilter::sortByConfidence`: outer loop
`for (i = 0; i < count - 1; i++)` with inner bound `count - i - 1`.
(`count ≥ 1` at every call site; `ℕ` subtraction models that regime.) -/
def sortByConfidence (l : List Box) : List Box :=
  (List.range (l.length - 1)).foldl
    (fun acc i => bubblePass acc (l.length - 1 - i)) l

/-- The suppression condition of the NMS inner loop: same class and
(IoU above threshold or centers closer than `SPATIAL_THRESHOLD`). -/
def nmsTrigger (a b : Box) : Bool :=
  sameClass a b &&
    (decide (NMS_IOU_THRESHOLD < calculateIoU a b) ||
     decide (distanceSq a b < (SPATIAL_THRESHOLD : ℤ) * SPATIAL_THRESHOLD))

/-- One iteration of the NMS inner loop: suppress `bj` when it is not
yet suppressed and triggers against the keeper `bi`. -/
def nmsMark (bi bj : Box) : Box :=
  if !bj.suppressed && nmsTrigger bi bj then { bj with suppressed := true }
  else bj

/-- Inner loop of `DetectionFilter::applyNMS` for a fixed keeper `bi`:
every later not-yet-suppressed same-class box that triggers is
suppressed. -/
def nmsInner (bi : Box) (rest : List Box) : List Box :=
  rest.map (nmsMark bi)

/-- Outer loop of `applyNMS` after the sort, with explicit fuel
(`fuel` is always at least the list length at every call). -/
def nmsScanFuel : ℕ → List Box → List Box
  | _, [] => []
  | 0, l => l
  | fuel + 1, b :: rest =>
    if b.suppressed then b :: nmsScanFuel fuel rest
    else b :: nmsScanFuel fuel (nmsInner b rest)

/-- The scan phase of `applyNMS` (everything after `sortByConfidence`). -/
def nmsScan (l : List Box) : List Box := nmsScanFuel l.length l

/-- `DetectionFilter::applyNMS`: sort by descending confidence, then
greedily suppress. -/
def applyNMS (l : List Box) : List Box := nmsScan (sortByConfidence l)

/-- Body of `DetectionFilter::filterInvalid` for one box: the frame
bounds `W`, `H` stand for `EI_CLASSIFIER_INPUT_WIDTH/HEIGHT`, constants
of the (out-of-repository) Edge Impulse model header. -/
def filterInvalidOne (W H : ℕ) (b : Box) : Box :=
  if b.suppressed then b
  else if !b.isValid then { b with suppressed := true }
  else if W < b.x + b.width ∨ H < b.y + b.height then { b with suppressed := true }
  else
    let aspectRatio : ℚ := (b.width : ℚ) / (b.height : ℚ)
    if 10 < aspectRatio ∨ aspectRatio < 1 / 10 then { b with suppressed := true }
    else b

/-- `DetectionFilter::filterInvalid` (each iteration touches only
`boxes[i]`, so the loop is a map). -/
def filterInvalid (W H : ℕ) (l : List Box) : List Box :=
  l.map (filterInvalidOne W H)

/-- The containment test of `DetectionFilter::removeContained`:
`bj` geometrically inside `bi`. -/
def containedIn (bj bi : Box) : Bool :=
  bi.x ≤ bj.x && bi.y ≤ bj.y &&
    bj.x + bj.width ≤ bi.x + bi.width && bj.y + bj.height ≤ bi.y + bi.height

/-- Inner loop of `removeContained` for outer index `i` and container
`bi` (`j` tracks the index of the head of the remaining list). -/
def rcInnerAux (bi : Box) (i : ℕ) : ℕ → List Box → List Box
  | _, [] => []
  | j, bj :: rest =>
    (if j = i || bj.suppressed then bj
     else if containedIn bj bi && decide (bj.confidence < bi.confidence) then
       { bj with suppressed := true }
     else bj) :: rcInnerAux bi i (j + 1) rest

def rcInner (bi : Box) (i : ℕ) (arr : List Box) : List Box :=
  rcInnerAux bi i 0 arr

/-- Outer loop of `removeContained` over indices `i`, with fuel. -/
def rcLoop : ℕ → ℕ → List Box → List Box
  | _, 0, arr => arr
  | i, fuel + 1, arr =>
    match arr.get? i with
    | none => arr
    | some bi =>
      if bi.suppressed then rcLoop (i + 1) fuel arr
      else rcLoop (i + 1) fuel (rcInner bi i arr)

/-- `DetectionFilter::removeContained` -/
def removeContained (arr : List Box) : List Box := rcLoop 0 arr.length arr

/-- The composite score of `keepBestPerClass`:
`confidence * 0.7f + (area()/1000.0f) * 0.3f`. -/
def score (b : Box) : ℚ := b.confidence * (7 / 10) + ((b.area : ℚ) / 1000) * (3 / 10)

/-- Inner loop of `keepBestPerClass` for keeper `bi`: returns whether
`bi` itself got suppressed (the `break` branch) and the updated tail. -/
def kbInner (bi : Box) : List Box → Bool × List Box
  | [] => (false, [])
  | bj :: rest =>
    if bj.suppressed || !sameClass bi bj then
      let p := kbInner bi rest
      (p.1, bj :: p.2)
    else if score bj ≤ score bi then
      let p := kbInner bi rest
      (p.1, { bj with suppressed := true } :: p.2)
    else (true, bj :: rest)

/-- Outer loop of `keepBestPerClass`, with fuel (always at least the
list length at every call). -/
def kbLoop : ℕ → List Box → List Box
  | _, [] => []
  | 0, l => l
  | fuel + 1, bi :: rest =>
    if bi.suppressed then bi :: kbLoop fuel rest
    else
      let p := kbInner bi rest
      (if p.1 then { bi with suppressed := true } else bi) :: kbLoop fuel p.2

/-- `DetectionFilter::keepBestPerClass` -/
def keepBestPerClass (l : List Box) : List Box := kbLoop l.length l

/-- The four filter stages in the order `runInference` applies them. -/
def runFilters (W H : ℕ) (l : List Box) : List Box :=
  keepBestPerClass (applyNMS (removeContained (filterInvalid W H l)))

/-- Result emission of `runInference`: the first unsuppressed box after
all four stages, if any (`NONE` otherwise). -/
def emitResult (W H : ℕ) (l : List Box) : Option Box :=
  (runFilters W H l).find? (fun b => !b.suppressed)

/-- One pipeline step on a single box: either unchanged or the
suppressed flag is turned on; all other fields are untouched. -/
def boxStep (a b : Box) : Prop := b = a ∨ b = { a with suppressed := true }

/-- Equality of every field except the suppression flag. -/
def sameBoxData (a b : Box) : Prop :=
  a.x = b.x ∧ a.y = b.y ∧ a.width = b.width ∧ a.height = b.height ∧
    a.confidence = b.confidence ∧ a.label = b.label

end Vision

namespace Sorter

/-- `#define MAX_VOTES 3` -/
def MAX_VOTES : ℕ := 3

/-- `#define MAJORITY_VOTES 2` -/
def MAJORITY_VOTES : ℕ := 2

/-- `#define MIN_CONFIDENCE 0.65` -/
def MIN_CONFIDENCE : ℚ := 65 / 100

/-- `#define MAX_REPOSITIONS 2` -/
def MAX_REPOSITIONS : ℕ := 2

/-- The six voting globals `votesCan .. confBottle` of `Arduino.ino`
(`uint8_t` counts as `ℕ`, `float` sums as `ℚ`). -/
structure Tally where
  votesCan : ℕ
  votesGlass : ℕ
  votesBottle : ℕ
  confCan : ℚ
  confGlass : ℚ
  confBottle : ℚ
deriving DecidableEq

/-- The all-zero tally (what `resetVotes` and the forced-unknown paths
write into the six voting globals). -/
def zeroTally : Tally := ⟨0, 0, 0, 0, 0, 0⟩

/-- `typedef enum { STATE_IDLE, ... } SystemState` -/
inductive SystemState where
  | idle
  | detect
  | request
  | wait
  | reposition
  | decide
  | sort
  | error
deriving DecidableEq

/-- The mutable state the state machine runs on: current phase, the
vote tally, and the two attempt counters (the `deadline` timestamp is
modelled by an explicit timeout input event instead of wall-clock
time). -/
structure Machine where
  state : SystemState
  tally : Tally
  repositionAttempts : ℕ
  consecutiveNones : ℕ
deriving DecidableEq

/-- The fixed class labels compared by `recordVote` (`strcmp`). -/
def CAN3 : List Char := ['C', 'A', 'N', '3']

def GLASS3 : List Char := ['G', 'L', 'A', 'S', 'S', '3']

def BOTTLE3 : List Char := ['B', 'O', 'T', 'T', 'L', 'E', '3']

/-- `recordVote`: bump the matching class count and confidence sum (an
unrecognised label matches no branch), then reset `consecutiveNones`. -/
def recordVote (className : List Char) (confidence : ℚ) (m : Machine) : Machine :=
  let m' :=
    if className = CAN3 then
      { m with tally := { m.tally with
          votesCan := m.tally.votesCan + 1,
          confCan := m.tally.confCan + confidence } }
    else if className = GLASS3 then
      { m with tally := { m.tally with
          votesGlass := m.tally.votesGlass + 1,
          confGlass := m.tally.confGlass + confidence } }
    else if className = BOTTLE3 then
      { m with tally := { m.tally with
          votesBottle := m.tally.votesBottle + 1,
          confBottle := m.tally.confBottle + confidence } }
    else m
  { m' with consecutiveNones := 0 }

/-- `getTotalVotes` -/
def getTotalVotes (t : Tally) : ℕ := t.votesCan + t.votesGlass + t.votesBottle

/-- `hasMajority` -/
def hasMajority (t : Tally) : Bool :=
  decide (MAJORITY_VOTES ≤ t.votesCan) || decide (MAJORITY_VOTES ≤ t.votesGlass) ||
    decide (MAJORITY_VOTES ≤ t.votesBottle)

/-- `calculateBin`: majority first (fixed priority CAN, GLASS, BOTTLE),
then the zero-vote check, then the accumulated-confidence tie-break
with the `maxConf < 0.01` floor. -/
def calculateBin (t : Tally) : ℕ :=
  if MAJORITY_VOTES ≤ t.votesCan then 1
  else if MAJORITY_VOTES ≤ t.votesGlass then 2
  else if MAJORITY_VOTES ≤ t.votesBottle then 3
  else if getTotalVotes t = 0 then 4
  else
    let mc1 : ℚ := t.confCan
    let p2 : ℚ × ℕ := if mc1 < t.confGlass then (t.confGlass, 2) else (mc1, 1)
    let p3 : ℚ × ℕ := if p2.1 < t.confBottle then (t.confBottle, 3) else p2
    if p3.1 < 1 / 100 then 4 else p3.2

/-- Whether a buffer begins with the two-character marker `OK`. -/
def startsOK : List Char → Bool
  | 'O' :: 'K' :: _ => true
  | _ => false

/-- `strstr(buffer, "OK")`: the suffix starting at the first occurrence
of `OK`, if any. -/
def strstrOK : List Char → Option (List Char)
  | [] => none
  | c :: rest => if startsOK (c :: rest) then some (c :: rest) else strstrOK rest

/-- `strchr(s, ':')`: the suffix starting at the first colon, if any. -/
def strchrColon : List Char → Option (List Char)
  | [] => none
  | c :: rest => if c = ':' then some (c :: rest) else strchrColon rest

def isDigitC (c : Char) : Bool := '0' ≤ c && c ≤ '9'

def digitVal (c : Char) : ℕ := c.toNat - 48

def digitsToNat (l : List Char) : ℕ := l.foldl (fun a c => 10 * a + digitVal c) 0

/-- C `isspace` for the default locale. -/
def isSpaceC (c : Char) : Bool :=
  c = ' ' || c = '\t' || c = '\n' || c = '\x0b' || c = '\x0c' || c = '\r'

/-- Exponent part of a C decimal float literal (`e`/`E` already
consumed); an `e` with no digits contributes no exponent, matching
`strtod`'s backtracking. -/
def expPart (t : List Char) : ℤ :=
  let p : ℤ × List Char :=
    match t with
    | '-' :: u => (-1, u)
    | '+' :: u => (1, u)
    | _ => (1, t)
  let ed := p.2.takeWhile isDigitC
  if ed = [] then 0 else p.1 * (digitsToNat ed : ℤ)

/-- `atof` on the decimal forms (optional whitespace and sign, integer
digits, optional fraction, optional exponent); the exotic `strtod`
forms (hex floats, `inf`, `nan`) are not modelled.  No conversion
yields `0.0`, as in C. -/
def atofQ (s : List Char) : ℚ :=
  let s1 := s.dropWhile isSpaceC
  let p : ℚ × List Char :=
    match s1 with
    | '-' :: t => (-1, t)
    | '+' :: t => (1, t)
    | _ => (1, s1)
  let ip := p.2.takeWhile isDigitC
  let s3 := p.2.dropWhile isDigitC
  let q : List Char × List Char :=
    match s3 with
    | '.' :: t => (t.takeWhile isDigitC, t.dropWhile isDigitC)
    | _ => ([], s3)
  let mant : ℚ := (digitsToNat ip : ℚ) + (digitsToNat q.1 : ℚ) / (10 : ℚ) ^ q.1.length
  let ex : ℤ :=
    match q.2 with
    | 'e' :: t => expPart t
    | 'E' :: t => expPart t
    | _ => 0
  p.1 * mant * (10 : ℚ) ^ ex

/-- The literal `"NONE"` checked by `strncmp(buffer, "NONE", 4)`. -/
def NONEtok : List Char := ['N', 'O', 'N', 'E']

/-- The literal `"ERR:"` checked by `strncmp(buffer, "ERR:", 4)`. -/
def ERRtok : List Char := ['E', 'R', 'R', ':']

/-- `parseResponse` up to the point where `outClass` and `outConf` are
written: `none` on every early `return false` path, `some` (label,
confidence) when `OK` and both colons are found.  The label is the text
between the first and second colon after `OK`, truncated to 15
characters (`classLen > 15` clamp); the confidence is `atof` of the
text after the second colon. -/
def parseResponse (buffer : List Char) : Option (List Char × ℚ) :=
  if buffer = [] then none
  else if NONEtok.isPrefixOf buffer then none
  else if ERRtok.isPrefixOf buffer then none
  else
    match strstrOK buffer with
    | none => none
    | some okPtr =>
      match strchrColon (okPtr.drop 2) with
      | none => none
      | some colonPtr =>
        let classPtr := colonPtr.drop 1
        match strchrColon classPtr with
        | none => none
        | some secondColonPtr =>
          let classLen := min (classPtr.length - secondColonPtr.length) 15
          some (classPtr.take classLen, atofQ (secondColonPtr.drop 1))

/-- The boolean actually returned by `parseResponse`: `false` on all
no-detection paths and on a well-formed line below `MIN_CONFIDENCE`. -/
def parseResponseB (buffer : List Char) : Bool :=
  match parseResponse buffer with
  | none => false
  | some p => decide (MIN_CONFIDENCE ≤ p.2)

/-- The safe-set test of the `STATE_WAIT` read loop: digits, letters,
colon, dot; everything else is dropped. -/
def isSafeChar (c : Char) : Bool :=
  ('0' ≤ c && c ≤ '9') || ('A' ≤ c && c ≤ 'Z') || ('a' ≤ c && c ≤ 'z') ||
    c = ':' || c = '.'

/-- The `STATE_WAIT` line reader: stop at the first `\n`/`\r`, keep
only safe characters, cap the buffer at 31 characters. -/
def lineFilter (raw : List Char) : List Char :=
  ((raw.takeWhile (fun c => !(c = '\n' || c = '\r'))).filter isSafeChar).take 31

/-- The externally visible side effects a state-machine step issues. -/
inductive Command where
  | display (line1 line2 : String)
  | moveServo1 (angle : ℕ)
  | sortToBin (bin : ℕ)
  | sendInfer
deriving DecidableEq

/-- What happens on the serial link while the machine sits in
`STATE_WAIT`: the deadline expires, nothing arrives this loop
iteration, or a (raw) reply line arrives. -/
inductive WaitInput where
  | timeout
  | noData
  | line (raw : List Char)
deriving DecidableEq

/-- One loop iteration's environment: the presence-sensor reading
(`isObjectPresent()`) and the serial event. -/
structure Input where
  present : Bool
  waitInput : WaitInput
deriving DecidableEq

/-- Second display line of `showVotes` (`snprintf "C:%d G:%d B:%d"`). -/
def voteLine (t : Tally) : String :=
  "C:" ++ toString t.votesCan ++ " G:" ++ toString t.votesGlass ++
    " B:" ++ toString t.votesBottle

/-- First display line of `STATE_REPOSITION` (`snprintf "Reposition #%d"`). -/
def repositionLine (n : ℕ) : String := "Reposition #" ++ toString n

/-- Display text of `STATE_DECIDE` (`snprintf "Bin %d"`). -/
def binLine1 (bin : ℕ) : String := "Bin " ++ toString bin

/-- Second display line of `STATE_DECIDE`. -/
def binName (bin : ℕ) : String :=
  if bin = 1 then "CAN" else if bin = 2 then "GLASS"
  else if bin = 3 then "BOTTLE" else "MIXED"

/-- The shared no-detection branch of `STATE_WAIT` (the `else` of
`parseResponse`): bump `consecutiveNones`; if repositioning has begun,
keep repositioning or, once `MAX_REPOSITIONS` is exhausted, zero the
tally and force `STATE_DECIDE`; otherwise consult the presence sensor
first (gone object aborts to `STATE_IDLE`). -/
def nonDetectionStep (m : Machine) (present : Bool) : Machine × List Command :=
  let m1 := { m with consecutiveNones := m.consecutiveNones + 1 }
  if 0 < m1.repositionAttempts then
    if m1.repositionAttempts < MAX_REPOSITIONS then
      ({ m1 with state := .reposition }, [])
    else
      ({ m1 with tally := zeroTally, state := .decide },
        [.display ("Can't detect") ("-> Bin 4")])
  else
    if present then
      if m1.repositionAttempts < MAX_REPOSITIONS then
        ({ m1 with state := .reposition }, [])
      else
        ({ m1 with tally := zeroTally, state := .decide },
          [.display ("Can't detect") ("-> Bin 4")])
    else ({ m1 with state := .idle }, [])

/-- `runStateMachine`: one `switch (state)` dispatch, returning the
next machine state and the side effects of that iteration. -/
def step (m : Machine) (inp : Input) : Machine × List Command :=
  match m.state with
  | .idle =>
    (if inp.present then { m with state := .detect } else m,
      [.display ("Ready") ("")])
  | .detect =>
    if inp.present then
      ({ m with tally := zeroTally, repositionAttempts := 0
                consecutiveNones := 0, state := .request },
        [.display ("Detecting") ("Object present"), .moveServo1 0])
    else ({ m with state := .idle }, [.display ("Detecting") ("Object present")])
  | .request =>
    ({ m with state := .wait }, [.display ("Requesting") ("Inference..."), .sendInfer])
  | .wait =>
    match inp.waitInput with
    | .timeout => ({ m with state := .error }, [])
    | .noData => (m, [])
    | .line raw =>
      let buffer := lineFilter raw
      if buffer = [] then (m, [])
      else
        match parseResponse buffer with
        | some p =>
          if MIN_CONFIDENCE ≤ p.2 then
            let m1 := recordVote p.1 p.2 m
            if hasMajority m1.tally || MAX_VOTES ≤ getTotalVotes m1.tally then
              ({ m1 with state := .decide },
                [.display ("Voting...") (voteLine m1.tally)])
            else ({ m1 with state := .request },
              [.display ("Voting...") (voteLine m1.tally)])
          else nonDetectionStep m inp.present
        | none => nonDetectionStep m inp.present
  | .reposition =>
    let m1 := { m with repositionAttempts := m.repositionAttempts + 1 }
    let angle : ℕ := if m1.repositionAttempts = 1 then 45 else 90
    ({ m1 with state := .request },
      [.display (repositionLine m1.repositionAttempts) ("Trying again..."),
        .moveServo1 angle])
  | .decide =>
    let bin := calculateBin m.tally
    ({ m with state := .sort }, [.display (binLine1 bin) (binName bin)])
  | .sort =>
    let bin := calculateBin m.tally
    ({ m with state := .idle }, [.sortToBin bin])
  | .error =>
    ({ m with tally := zeroTally, state := .idle },
      [.display ("Error/Timeout") ("-> Bin 4"), .moveServo1 0, .sortToBin 4])

/-- After the `STATE_WAIT` step of a round-trip: if it chose
`STATE_REPOSITION`, run the reposition step back to `STATE_REQUEST`. -/
def infRoundPost (m2 : Machine) : Machine :=
  if m2.state = .reposition then (step m2 ⟨true, .noData⟩).1 else m2

/-- Process the reply `raw` in `STATE_WAIT`, then any reposition step. -/
def infRoundWait (raw : List Char) (m1 : Machine) : Machine :=
  infRoundPost (step m1 ⟨true, .line raw⟩).1

/-- One inference round-trip starting from `STATE_REQUEST`: issue the
request, process the reply `raw` in `STATE_WAIT`, and, if that chose
`STATE_REPOSITION`, run the reposition step back to `STATE_REQUEST`
(the presence sensor reads true throughout). -/
def infRound (raw : List Char) (m : Machine) : Machine :=
  infRoundWait raw (step m ⟨true, .noData⟩).1

end Sorter

namespace Vision

/-- Scenario boxes of the spec: three overlapping same-class boxes with
confidences 0.9, 0.8, 0.95 and pairwise IoU above the threshold. -/
def scenarioLabel : List Char := ['C', 'A', 'N', '3']

def box09 : Box := ⟨10, 10, 20, 20, 9 / 10, scenarioLabel, false⟩

def box08 : Box := ⟨12, 10, 20, 20, 8 / 10, scenarioLabel, false⟩

def box095 : Box := ⟨10, 12, 20, 20, 95 / 100, scenarioLabel, false⟩

def scenarioBoxes : List Box := [box09, box08, box095]

/-- Descending-confidence order. -/
def confGe (a b : Box) : Prop := b.confidence ≤ a.confidence

/-- Bounded-pass prefix of `sortByConfidence`: the first `k` outer
iterations (`L` is the fixed `count` parameter of the C function). -/
def sortPasses (L : ℕ) (l : List Box) (k : ℕ) : List Box :=
  (List.range k).foldl (fun acc i => bubblePass acc (L - 1 - i)) l

end Vision

namespace Sorter

/-- Recogniser for physical-sort commands (used to state that a cycle
performs exactly one actuation sequence). -/
def isSortCmd : Command → Bool
  | .sortToBin _ => true
  | _ => false

end Sorter

namespace Sorter

lemma hasMajority_false_iff (t : Tally) :
    hasMajority t = false ↔ t.votesCan < 2 ∧ t.votesGlass < 2 ∧ t.votesBottle < 2 := by
  simp [hasMajority, MAJORITY_VOTES, not_le, and_assoc]

end Sorter

/-- Claim C1: for every vote tally in which some class's vote count is at
least `MAJORITY_VOTES = 2`, `calculateBin` returns that class's bin, and
if more than one class reaches the threshold it returns the earliest in
the priority order CAN, GLASS, BOTTLE — independent of the accumulated
confidence values (which the statement quantifies over freely). -/
theorem claim_C1 (t : Sorter.Tally) (h : Sorter.hasMajority t = true) :
    Sorter.calculateBin t =
      if Sorter.MAJORITY_VOTES ≤ t.votesCan then 1
      else if Sorter.MAJORITY_VOTES ≤ t.votesGlass then 2
      else 3 := by
  simp only [Sorter.hasMajority, Sorter.MAJORITY_VOTES, Bool.or_eq_true,
    decide_eq_true_eq] at h
  simp only [Sorter.calculateBin, Sorter.MAJORITY_VOTES]
  split_ifs <;> first | rfl | omega

/-- Witness for C1 at the spec's scenario tally {CAN:2, GLASS:1}. -/
theorem claim_C1_witness :
    Sorter.hasMajority ⟨2, 1, 0, 13/10, 7/10, 0⟩ = true ∧
      Sorter.calculateBin ⟨2, 1, 0, 13/10, 7/10, 0⟩ = 1 := by
  refine ⟨by decide, ?_⟩
  have h := claim_C1 ⟨2, 1, 0, 13/10, 7/10, 0⟩ (by decide)
  simpa using h

/-- Counterexample to C2 as stated: the tally with one CAN vote and
accumulated confidence 0.005 has no majority, a nonzero total vote
count, and a strictly greatest CAN confidence sum, yet `calculateBin`
returns 4 (unknown), not CAN's bin 1, because of the `maxConf < 0.01`
negligible-value floor. -/
theorem claim_C2_counterexample :
    Sorter.hasMajority ⟨1, 0, 0, 1/200, 0, 0⟩ = false ∧
      Sorter.getTotalVotes ⟨1, 0, 0, 1/200, 0, 0⟩ ≠ 0 ∧
      (Sorter.Tally.confGlass ⟨1, 0, 0, 1/200, 0, 0⟩ <
        Sorter.Tally.confCan ⟨1, 0, 0, 1/200, 0, 0⟩) ∧
      (Sorter.Tally.confBottle ⟨1, 0, 0, 1/200, 0, 0⟩ <
        Sorter.Tally.confCan ⟨1, 0, 0, 1/200, 0, 0⟩) ∧
      Sorter.calculateBin ⟨1, 0, 0, 1/200, 0, 0⟩ ≠ 1 := by
  refine ⟨by decide, by decide, by norm_num, by norm_num, ?_⟩
  norm_num [Sorter.calculateBin, Sorter.getTotalVotes, Sorter.MAJORITY_VOTES]

/-- Claim C2 (amended): for every vote tally with no majority and a
nonzero total vote count, `calculateBin` returns the class with the
strictly greatest accumulated confidence sum provided that greatest sum
is at least the negligible floor 0.01, and returns 4 (unknown) when it
is below the floor; equal accumulated confidence sums resolve in favor
of the class earliest in the priority order CAN, GLASS, BOTTLE. -/
theorem claim_C2 (t : Sorter.Tally) (hm : Sorter.hasMajority t = false)
    (hv : Sorter.getTotalVotes t ≠ 0) :
    ((t.confGlass ≤ t.confCan ∧ t.confBottle ≤ t.confCan) →
      Sorter.calculateBin t = if t.confCan < 1/100 then 4 else 1) ∧
    ((t.confCan < t.confGlass ∧ t.confBottle ≤ t.confGlass) →
      Sorter.calculateBin t = if t.confGlass < 1/100 then 4 else 2) ∧
    ((t.confCan < t.confBottle ∧ t.confGlass < t.confBottle) →
      Sorter.calculateBin t = if t.confBottle < 1/100 then 4 else 3) := by
  rw [Sorter.hasMajority_false_iff] at hm
  obtain ⟨hc, hg, hb⟩ := hm
  simp only [Sorter.calculateBin, Sorter.MAJORITY_VOTES]
  rw [if_neg (by omega), if_neg (by omega), if_neg (by omega), if_neg hv]
  refine ⟨fun ⟨h1, h2⟩ => ?_, fun ⟨h1, h2⟩ => ?_, fun ⟨h1, h2⟩ => ?_⟩ <;>
    split_ifs <;> first | rfl | linarith

/-- Witness for C2 at the spec's confidence-tie-break scenario
{CAN:1 conf 0.7, GLASS:1 conf 0.9}: bin GLASS. -/
theorem claim_C2_witness :
    Sorter.calculateBin ⟨1, 1, 0, 7/10, 9/10, 0⟩ = 2 := by
  have h := (claim_C2 ⟨1, 1, 0, 7/10, 9/10, 0⟩ (by decide) (by decide)).2.1
    ⟨by norm_num, by norm_num⟩
  rw [if_neg (by norm_num)] at h
  exact h

/-- Claim C5: whenever the WAIT state's deadline expires, the machine
enters ERROR; the ERROR step zeroes every vote count and confidence sum
of the tally, displays the outcome, issues the physical actuation
sequence for the unknown bin (4) exactly once (after the display), and
returns to IDLE. -/
theorem claim_C5 (m : Sorter.Machine) (inp inp' : Sorter.Input)
    (hs : m.state = .wait) (ht : inp.waitInput = .timeout) :
    (Sorter.step m inp).1.state = .error ∧
    (Sorter.step (Sorter.step m inp).1 inp').1.state = .idle ∧
    (Sorter.step (Sorter.step m inp).1 inp').1.tally = Sorter.zeroTally ∧
    (Sorter.step (Sorter.step m inp).1 inp').2 =
      [.display ("Error/Timeout") ("-> Bin 4"), .moveServo1 0, .sortToBin 4] ∧
    ((Sorter.step (Sorter.step m inp).1 inp').2.filter Sorter.isSortCmd) =
      [.sortToBin 4] := by
  obtain ⟨s, t, ra, cn⟩ := m
  obtain ⟨p, wi⟩ := inp
  cases hs
  cases ht
  exact ⟨rfl, rfl, rfl, rfl, rfl⟩

/-- Witness for C5 at a concrete mid-cycle machine state. -/
theorem claim_C5_witness :
    (Sorter.step ⟨.wait, ⟨1, 0, 0, 7/10, 0, 0⟩, 0, 0⟩ ⟨true, .timeout⟩).1.state =
        .error ∧
      (Sorter.step (Sorter.step ⟨.wait, ⟨1, 0, 0, 7/10, 0, 0⟩, 0, 0⟩
            ⟨true, .timeout⟩).1 ⟨false, .noData⟩).1.tally = Sorter.zeroTally := by
  have h := claim_C5 ⟨.wait, ⟨1, 0, 0, 7/10, 0, 0⟩, 0, 0⟩ ⟨true, .timeout⟩
    ⟨false, .noData⟩ rfl rfl
  exact ⟨h.1, h.2.2.1⟩

/-- Claim C8: the DECIDE step leaves every field of the vote tally
unchanged and moves to SORT, so the bin recomputed by the SORT step
equals the bin computed (and displayed) in DECIDE. -/
theorem claim_C8 (m : Sorter.Machine) (inp inp' : Sorter.Input)
    (hs : m.state = .decide) :
    (Sorter.step m inp).1.tally = m.tally ∧
    (Sorter.step m inp).1.state = .sort ∧
    Sorter.calculateBin (Sorter.step m inp).1.tally = Sorter.calculateBin m.tally ∧
    (Sorter.step m inp).2 =
      [.display (Sorter.binLine1 (Sorter.calculateBin m.tally))
        (Sorter.binName (Sorter.calculateBin m.tally))] ∧
    (Sorter.step (Sorter.step m inp).1 inp').2 =
      [.sortToBin (Sorter.calculateBin m.tally)] := by
  obtain ⟨s, t, ra, cn⟩ := m
  cases hs
  exact ⟨rfl, rfl, rfl, rfl, rfl⟩

/-- Witness for C8 at a concrete tally. -/
theorem claim_C8_witness :
    (Sorter.step ⟨.decide, ⟨2, 0, 0, 14/10, 0, 0⟩, 0, 0⟩ ⟨true, .noData⟩).1.tally =
        (⟨2, 0, 0, 14/10, 0, 0⟩ : Sorter.Tally) ∧
      (Sorter.step (Sorter.step ⟨.decide, ⟨2, 0, 0, 14/10, 0, 0⟩, 0, 0⟩
            ⟨true, .noData⟩).1 ⟨true, .noData⟩).2 =
        [.sortToBin (Sorter.calculateBin ⟨2, 0, 0, 14/10, 0, 0⟩)] := by
  have h := claim_C8 ⟨.decide, ⟨2, 0, 0, 14/10, 0, 0⟩, 0, 0⟩ ⟨true, .noData⟩
    ⟨true, .noData⟩ rfl
  exact ⟨h.1, h.2.2.2.2⟩

/-- Claim C10: `recordVote` with a label outside {CAN3, GLASS3,
BOTTLE3} leaves all vote counts and confidence sums unchanged while
still zeroing the consecutive-non-detection counter; consequently an
accepted OK reply with an unknown label sends the WAIT state back to
REQUEST with the tally untouched. -/
theorem claim_C10 (cls : List Char) (conf : ℚ) (m : Sorter.Machine)
    (h1 : cls ≠ Sorter.CAN3) (h2 : cls ≠ Sorter.GLASS3) (h3 : cls ≠ Sorter.BOTTLE3) :
    Sorter.recordVote cls conf m = { m with consecutiveNones := 0 } ∧
    (∀ (raw : List Char) (p : Bool), m.state = .wait →
      Sorter.parseResponse (Sorter.lineFilter raw) = some (cls, conf) →
      Sorter.MIN_CONFIDENCE ≤ conf →
      Sorter.hasMajority m.tally = false →
      Sorter.getTotalVotes m.tally < Sorter.MAX_VOTES →
      (Sorter.step m ⟨p, .line raw⟩).1.state = .request ∧
      (Sorter.step m ⟨p, .line raw⟩).1.tally = m.tally ∧
      (Sorter.step m ⟨p, .line raw⟩).1.consecutiveNones = 0) := by
  have hrec : Sorter.recordVote cls conf m = { m with consecutiveNones := 0 } := by
    rw [Sorter.recordVote, if_neg h1, if_neg h2, if_neg h3]
  refine ⟨hrec, fun raw p hs hparse hconf hmaj htot => ?_⟩
  obtain ⟨s, t, ra, cn⟩ := m
  cases hs
  have hne : Sorter.lineFilter raw ≠ [] := by
    intro he
    rw [he] at hparse
    simp [Sorter.parseResponse] at hparse
  simp only [Sorter.step, if_neg hne, hparse, if_pos hconf, hrec]
  simp only [Sorter.Machine.tally] at hmaj htot
  simp [hmaj, Nat.not_le.2 htot]

/-- Witness for C10: an accepted `OK:PLA:0.9` reply (label `PLA` is in
no vote branch) leaves a one-CAN-vote tally untouched and returns to
REQUEST. -/
theorem claim_C10_witness :
    Sorter.recordVote ['P', 'L', 'A'] (9/10)
        ⟨.wait, ⟨1, 0, 0, 7/10, 0, 0⟩, 0, 2⟩ =
      ⟨.wait, ⟨1, 0, 0, 7/10, 0, 0⟩, 0, 0⟩ ∧
    (Sorter.step ⟨.wait, ⟨1, 0, 0, 7/10, 0, 0⟩, 0, 2⟩
        ⟨true, .line (['O', 'K', ':', 'P', 'L', 'A', ':', '0', '.', '9'])⟩).1.state =
      .request ∧
    (Sorter.step ⟨.wait, ⟨1, 0, 0, 7/10, 0, 0⟩, 0, 2⟩
        ⟨true, .line (['O', 'K', ':', 'P', 'L', 'A', ':', '0', '.', '9'])⟩).1.tally =
      (⟨1, 0, 0, 7/10, 0, 0⟩ : Sorter.Tally) := by
  have h := claim_C10 ['P', 'L', 'A'] (9/10)
    ⟨.wait, ⟨1, 0, 0, 7/10, 0, 0⟩, 0, 2⟩ (by decide) (by decide) (by decide)
  have hato : Sorter.atofQ ['0', '.', '9'] = 9/10 := by
    simp +decide [Sorter.atofQ, Sorter.expPart, Sorter.digitsToNat, Sorter.digitVal,
      Sorter.isDigitC, Sorter.isSpaceC]
  have hp : Sorter.parseResponse
      (Sorter.lineFilter (['O', 'K', ':', 'P', 'L', 'A', ':', '0', '.', '9'])) =
      some (['P', 'L', 'A'], 9/10) := by
    rw [show Sorter.lineFilter (['O', 'K', ':', 'P', 'L', 'A', ':', '0', '.', '9']) =
        ['O', 'K', ':', 'P', 'L', 'A', ':', '0', '.', '9'] from by decide]
    rw [show Sorter.parseResponse (['O', 'K', ':', 'P', 'L', 'A', ':', '0', '.', '9']) =
        some (['P', 'L', 'A'], Sorter.atofQ ['0', '.', '9']) from rfl]
    rw [hato]
  have h2 := h.2 (['O', 'K', ':', 'P', 'L', 'A', ':', '0', '.', '9']) true rfl hp
    (by norm_num [Sorter.MIN_CONFIDENCE]) (by decide) (by decide)
  exact ⟨h.1, h2.1, h2.2.1⟩

/-- Any reply whose (filtered) buffer is nonempty but fails
`parseResponse`'s acceptance (NONE, ERR:, malformed, or low-confidence)
sends the WAIT state through the shared no-detection branch. -/
theorem step_wait_nonDetection (m : Sorter.Machine) (p : Bool) (raw : List Char)
    (hs : m.state = .wait) (hne : Sorter.lineFilter raw ≠ [])
    (hB : Sorter.parseResponseB (Sorter.lineFilter raw) = false) :
    Sorter.step m ⟨p, .line raw⟩ = Sorter.nonDetectionStep m p := by
  obtain ⟨s, t, ra, cn⟩ := m
  cases hs
  simp only [Sorter.step, if_neg hne]
  rcases hp : Sorter.parseResponse (Sorter.lineFilter raw) with _ | pr
  · rfl
  · have hB' : ¬ Sorter.MIN_CONFIDENCE ≤ pr.2 := by
      simp only [Sorter.parseResponseB, hp, decide_eq_false_iff_not] at hB
      exact hB
    exact if_neg hB'

/-- Claim C3: from the point where DETECT confirms presence, if every
inference reply is a non-detection and the presence check keeps
returning true, the machine reaches DECIDE with an all-zero tally after
at most `MAX_REPOSITIONS + 1 = 3` inference round-trips, and the
reposition-attempt counter never exceeds `MAX_REPOSITIONS = 2`
(it is 0, 1, 2, 2 after the DETECT step and the three rounds). -/
theorem claim_C3 (m : Sorter.Machine) (b1 b2 b3 : List Char)
    (hs : m.state = .detect)
    (h1 : Sorter.lineFilter b1 ≠ [])
    (h1b : Sorter.parseResponseB (Sorter.lineFilter b1) = false)
    (h2 : Sorter.lineFilter b2 ≠ [])
    (h2b : Sorter.parseResponseB (Sorter.lineFilter b2) = false)
    (h3 : Sorter.lineFilter b3 ≠ [])
    (h3b : Sorter.parseResponseB (Sorter.lineFilter b3) = false) :
    (Sorter.step m ⟨true, .noData⟩).1.repositionAttempts = 0 ∧
    (Sorter.infRound b1 (Sorter.step m ⟨true, .noData⟩).1).state = .request ∧
    (Sorter.infRound b1 (Sorter.step m ⟨true, .noData⟩).1).repositionAttempts = 1 ∧
    (Sorter.infRound b2 (Sorter.infRound b1
        (Sorter.step m ⟨true, .noData⟩).1)).state = .request ∧
    (Sorter.infRound b2 (Sorter.infRound b1
        (Sorter.step m ⟨true, .noData⟩).1)).repositionAttempts = 2 ∧
    (Sorter.infRound b3 (Sorter.infRound b2 (Sorter.infRound b1
        (Sorter.step m ⟨true, .noData⟩).1))).state = .decide ∧
    (Sorter.infRound b3 (Sorter.infRound b2 (Sorter.infRound b1
        (Sorter.step m ⟨true, .noData⟩).1))).tally = Sorter.zeroTally ∧
    (Sorter.infRound b3 (Sorter.infRound b2 (Sorter.infRound b1
        (Sorter.step m ⟨true, .noData⟩).1))).repositionAttempts = 2 := by
  obtain ⟨s, t, ra, cn⟩ := m
  cases hs
  have e0 : (Sorter.step ⟨.detect, t, ra, cn⟩ ⟨true, .noData⟩).1 =
      ⟨.request, Sorter.zeroTally, 0, 0⟩ := rfl
  rw [e0]
  have e1 : Sorter.infRound b1 ⟨.request, Sorter.zeroTally, 0, 0⟩ =
      ⟨.request, Sorter.zeroTally, 1, 1⟩ := by
    rw [Sorter.infRound,
      show (Sorter.step ⟨.request, Sorter.zeroTally, 0, 0⟩ ⟨true, .noData⟩).1 =
        ⟨.wait, Sorter.zeroTally, 0, 0⟩ from rfl,
      Sorter.infRoundWait, step_wait_nonDetection _ _ _ rfl h1 h1b]
    rfl
  have e2 : Sorter.infRound b2 ⟨.request, Sorter.zeroTally, 1, 1⟩ =
      ⟨.request, Sorter.zeroTally, 2, 2⟩ := by
    rw [Sorter.infRound,
      show (Sorter.step ⟨.request, Sorter.zeroTally, 1, 1⟩ ⟨true, .noData⟩).1 =
        ⟨.wait, Sorter.zeroTally, 1, 1⟩ from rfl,
      Sorter.infRoundWait, step_wait_nonDetection _ _ _ rfl h2 h2b]
    rfl
  have e3 : Sorter.infRound b3 ⟨.request, Sorter.zeroTally, 2, 2⟩ =
      ⟨.decide, Sorter.zeroTally, 2, 3⟩ := by
    rw [Sorter.infRound,
      show (Sorter.step ⟨.request, Sorter.zeroTally, 2, 2⟩ ⟨true, .noData⟩).1 =
        ⟨.wait, Sorter.zeroTally, 2, 2⟩ from rfl,
      Sorter.infRoundWait, step_wait_nonDetection _ _ _ rfl h3 h3b]
    rfl
  rw [e1, e2, e3]
  exact ⟨rfl, rfl, rfl, rfl, rfl, rfl, rfl, rfl⟩

/-- Witness for C3: three `NONE` replies from a concrete DETECT-state
machine end in DECIDE with the zero tally. -/
theorem claim_C3_witness :
    (Sorter.infRound ['N', 'O', 'N', 'E'] (Sorter.infRound ['N', 'O', 'N', 'E']
        (Sorter.infRound ['N', 'O', 'N', 'E']
          (Sorter.step ⟨.detect, ⟨1, 0, 0, 0, 0, 0⟩, 5, 7⟩
            ⟨true, .noData⟩).1))).state = .decide ∧
    (Sorter.infRound ['N', 'O', 'N', 'E'] (Sorter.infRound ['N', 'O', 'N', 'E']
        (Sorter.infRound ['N', 'O', 'N', 'E']
          (Sorter.step ⟨.detect, ⟨1, 0, 0, 0, 0, 0⟩, 5, 7⟩
            ⟨true, .noData⟩).1))).tally = Sorter.zeroTally := by
  have h := claim_C3 ⟨.detect, ⟨1, 0, 0, 0, 0, 0⟩, 5, 7⟩
    ['N', 'O', 'N', 'E'] ['N', 'O', 'N', 'E'] ['N', 'O', 'N', 'E'] rfl
    (by decide) (by decide) (by decide) (by decide) (by decide) (by decide)
  exact ⟨h.2.2.2.2.2.1, h.2.2.2.2.2.2.1⟩

namespace Sorter

lemma strchrColon_eq_none (l : List Char) (h : ':' ∉ l) : strchrColon l = none := by
  induction l with
  | nil => rfl
  | cons c rest ih =>
    have hc : ¬ c = ':' := fun he => h (he ▸ List.mem_cons_self c rest)
    rw [strchrColon, if_neg hc]
    exact ih (fun hm => h (List.mem_cons_of_mem c hm))

lemma strchrColon_append (pre t : List Char) (h : ':' ∉ pre) :
    strchrColon (pre ++ ':' :: t) = some (':' :: t) := by
  induction pre with
  | nil => rw [List.nil_append, strchrColon, if_pos rfl]
  | cons c pre ih =>
    have hc : ¬ c = ':' := fun he => h (he ▸ List.mem_cons_self c pre)
    rw [List.cons_append, strchrColon, if_neg hc]
    exact ih (fun hm => h (List.mem_cons_of_mem c hm))

lemma strchrColon_some (l s : List Char) (h : strchrColon l = some s) :
    ∃ pre t, l = pre ++ ':' :: t ∧ ':' ∉ pre ∧ s = ':' :: t := by
  induction l with
  | nil => exact absurd h (by simp [strchrColon])
  | cons c rest ih =>
    by_cases hc : c = ':'
    · subst hc
      rw [strchrColon, if_pos rfl, Option.some_inj] at h
      exact ⟨[], rest, rfl, by simp, h.symm⟩
    · rw [strchrColon, if_neg hc] at h
      obtain ⟨pre, t, he, hn, hs⟩ := ih h
      refine ⟨c :: pre, t, by rw [he, List.cons_append], ?_, hs⟩
      intro hm
      rcases List.mem_cons.1 hm with h1 | h2
      · exact hc h1.symm
      · exact hn h2

lemma strstrOK_append_ne_none (pre s : List Char) :
    strstrOK (pre ++ 'O' :: 'K' :: s) ≠ none := by
  induction pre with
  | nil => simp [strstrOK, startsOK]
  | cons c pre ih =>
    rw [List.cons_append, strstrOK]
    split_ifs with h
    · exact Option.some_ne_none _
    · exact ih

lemma strstrOK_ne_nil (b okPtr : List Char) (h : strstrOK b = some okPtr) : b ≠ [] := by
  intro he
  rw [he] at h
  exact absurd h (by simp [strstrOK])

lemma take_min_append (lbl rest : List Char) :
    (lbl ++ rest).take (min lbl.length 15) = lbl.take 15 := by
  rcases le_total lbl.length 15 with h | h
  · rw [min_eq_left h, List.take_append_eq_append_take, List.take_of_length_le le_rfl,
      Nat.sub_self, List.take_zero, List.append_nil, List.take_of_length_le h]
  · rw [min_eq_right h, List.take_append_eq_append_take,
      Nat.sub_eq_zero_of_le h, List.take_zero, List.append_nil]

/-- The positive path of `parseResponse`: with `OK` located at `okPtr`
(first occurrence) and the text after `OK` decomposing as
`mid : lbl : rest` with colon-free `mid` and `lbl`, the parser yields
the label truncated to 15 characters and `atof` of the remainder. -/
lemma parseResponse_positive (b okPtr mid lbl rest : List Char)
    (hN : NONEtok.isPrefixOf b = false) (hE : ERRtok.isPrefixOf b = false)
    (hok : strstrOK b = some okPtr)
    (hdrop : okPtr.drop 2 = mid ++ ':' :: (lbl ++ ':' :: rest))
    (hmid : ':' ∉ mid) (hlbl : ':' ∉ lbl) :
    parseResponse b = some (lbl.take 15, atofQ rest) := by
  have hb : b ≠ [] := strstrOK_ne_nil b okPtr hok
  rw [parseResponse, if_neg hb, if_neg (by simp [hN]), if_neg (by simp [hE])]
  simp only [hok, hdrop]
  rw [strchrColon_append mid _ hmid]
  simp only [List.drop_one, List.tail_cons]
  rw [strchrColon_append lbl rest hlbl]
  have hlen : (lbl ++ ':' :: rest).length - ((':' :: rest) : List Char).length =
      lbl.length := by
    simp
  simp only [hlen, List.drop_one, List.tail_cons]
  rw [take_min_append]

end Sorter

/-- Claim C4: `parseResponse` is total and returns no-detection
(`none`, i.e. `false`) for every buffer that is empty, starts with
`NONE`, starts with `ERR:`, contains no `OK` marker, or lacks two
colons after the `OK` marker; for every other buffer it locates `OK`
anywhere in the buffer (any garbage prefix is tolerated), takes the
label between the first and second colon after `OK` truncated to 15
characters, parses the confidence from the text after the second colon,
and accepts (returns `true`) exactly when that confidence is at least
`MIN_CONFIDENCE = 0.65` — a well-formed line with lower confidence is
`false`, treated as no detection. -/
theorem claim_C4 :
    (Sorter.parseResponse [] = none) ∧
    (∀ b, Sorter.NONEtok.isPrefixOf b = true → Sorter.parseResponse b = none) ∧
    (∀ b, Sorter.ERRtok.isPrefixOf b = true → Sorter.parseResponse b = none) ∧
    (∀ b, Sorter.strstrOK b = none → Sorter.parseResponse b = none) ∧
    (∀ pre s, Sorter.strstrOK (pre ++ 'O' :: 'K' :: s) ≠ none) ∧
    (∀ b okPtr, Sorter.strstrOK b = some okPtr →
      (okPtr.drop 2).count ':' < 2 → Sorter.parseResponse b = none) ∧
    (∀ b okPtr mid lbl rest,
      Sorter.NONEtok.isPrefixOf b = false → Sorter.ERRtok.isPrefixOf b = false →
      Sorter.strstrOK b = some okPtr →
      okPtr.drop 2 = mid ++ ':' :: (lbl ++ ':' :: rest) →
      ':' ∉ mid → ':' ∉ lbl →
      Sorter.parseResponse b = some (lbl.take 15, Sorter.atofQ rest) ∧
        (Sorter.parseResponseB b = true ↔
          Sorter.MIN_CONFIDENCE ≤ Sorter.atofQ rest)) := by
  refine ⟨rfl, ?_, ?_, ?_, Sorter.strstrOK_append_ne_none, ?_, ?_⟩
  · intro b hN
    rw [Sorter.parseResponse]
    split_ifs <;> rfl
  · intro b hE
    rw [Sorter.parseResponse]
    split_ifs <;> rfl
  · intro b hss
    rw [Sorter.parseResponse]
    split_ifs <;> first | rfl | simp only [hss]
  · intro b okPtr hok hcount
    rw [Sorter.parseResponse]
    split_ifs <;> try rfl
    simp only [hok]
    rcases hc1 : Sorter.strchrColon (okPtr.drop 2) with _ | c1
    · rfl
    · obtain ⟨pre, t, hdec, hpre, hs⟩ := Sorter.strchrColon_some _ _ hc1
      subst hs
      have ht : ':' ∉ t := by
        rw [hdec] at hcount
        simp only [List.count_append, List.count_cons_self] at hcount
        rw [← List.count_eq_zero]
        omega
      simp only [List.drop_one, List.tail_cons]
      rw [Sorter.strchrColon_eq_none t ht]
  · intro b okPtr mid lbl rest hN hE hok hdrop hmid hlbl
    have hp := Sorter.parseResponse_positive b okPtr mid lbl rest hN hE hok hdrop hmid hlbl
    refine ⟨hp, ?_⟩
    rw [Sorter.parseResponseB, hp]
    simp

/-- Witness for C4 at the spec's scenario `xxOK:GLASS3:0.91` (accepted,
label `GLASS3`, confidence 0.91) and at a `NONE` reply. -/
theorem claim_C4_witness :
    Sorter.parseResponse
        ['x', 'x', 'O', 'K', ':', 'G', 'L', 'A', 'S', 'S', '3', ':', '0', '.', '9', '1'] =
      some (['G', 'L', 'A', 'S', 'S', '3'], Sorter.atofQ ['0', '.', '9', '1']) ∧
    Sorter.parseResponse ['N', 'O', 'N', 'E'] = none := by
  constructor
  · have h := (claim_C4.2.2.2.2.2.2
      ['x', 'x', 'O', 'K', ':', 'G', 'L', 'A', 'S', 'S', '3', ':', '0', '.', '9', '1']
      ['O', 'K', ':', 'G', 'L', 'A', 'S', 'S', '3', ':', '0', '.', '9', '1']
      [] ['G', 'L', 'A', 'S', 'S', '3'] ['0', '.', '9', '1']
      (by decide) (by decide) (by decide) (by decide) (by decide) (by decide)).1
    simpa using h
  · exact claim_C4.2.1 ['N', 'O', 'N', 'E'] (by decide)

namespace Vision

lemma boxStep_refl (a : Box) : boxStep a a := Or.inl rfl

lemma boxStep_suppress (a : Box) : boxStep a { a with suppressed := true } := Or.inr rfl

lemma boxStep_trans {a b c : Box} (h1 : boxStep a b) (h2 : boxStep b c) :
    boxStep a c := by
  rcases h1 with h1 | h1 <;> rcases h2 with h2 | h2 <;> subst h1 <;> subst h2
  · exact Or.inl rfl
  · exact Or.inr rfl
  · exact Or.inr rfl
  · exact Or.inr rfl

lemma forall2_boxStep_refl (l : List Box) : List.Forall₂ boxStep l l :=
  List.forall₂_same.2 (fun a _ => boxStep_refl a)

lemma forall2_boxStep_trans {l1 l2 l3 : List Box}
    (h1 : List.Forall₂ boxStep l1 l2) (h2 : List.Forall₂ boxStep l2 l3) :
    List.Forall₂ boxStep l1 l3 := by
  induction h1 generalizing l3 with
  | nil => cases h2; exact List.Forall₂.nil
  | cons hab h1 ih =>
    cases h2 with
    | cons hbc h2 => exact List.Forall₂.cons (boxStep_trans hab hbc) (ih h2)

lemma boxStep_filterInvalidOne (W H : ℕ) (b : Box) :
    boxStep b (filterInvalidOne W H b) := by
  rw [filterInvalidOne]
  split_ifs <;> first
    | exact boxStep_refl b
    | exact boxStep_suppress b
    | (dsimp only
       split_ifs <;> first | exact boxStep_refl b | exact boxStep_suppress b)

lemma forall2_filterInvalid (W H : ℕ) (l : List Box) :
    List.Forall₂ boxStep l (filterInvalid W H l) := by
  induction l with
  | nil => exact List.Forall₂.nil
  | cons b rest ih => exact List.Forall₂.cons (boxStep_filterInvalidOne W H b) ih

lemma forall2_rcInnerAux (bi : Box) (i : ℕ) (j : ℕ) (l : List Box) :
    List.Forall₂ boxStep l (rcInnerAux bi i j l) := by
  induction l generalizing j with
  | nil => exact List.Forall₂.nil
  | cons bj rest ih =>
    rw [rcInnerAux]
    refine List.Forall₂.cons ?_ (ih (j + 1))
    split_ifs <;> first | exact boxStep_refl bj | exact boxStep_suppress bj

lemma forall2_rcLoop (i fuel : ℕ) (arr : List Box) :
    List.Forall₂ boxStep arr (rcLoop i fuel arr) := by
  induction fuel generalizing i arr with
  | zero => exact forall2_boxStep_refl arr
  | succ fuel ih =>
    rw [rcLoop]
    rcases hg : arr.get? i with _ | bi
    · exact forall2_boxStep_refl arr
    · show List.Forall₂ boxStep arr (if bi.suppressed = true then rcLoop (i + 1) fuel arr
        else rcLoop (i + 1) fuel (rcInner bi i arr))
      split_ifs
      · exact ih (i + 1) arr
      · exact forall2_boxStep_trans (forall2_rcInnerAux bi i 0 arr) (ih (i + 1) _)

lemma forall2_nmsInner (bi : Box) (rest : List Box) :
    List.Forall₂ boxStep rest (nmsInner bi rest) := by
  induction rest with
  | nil => exact List.Forall₂.nil
  | cons bj r ih =>
    rw [nmsInner, List.map_cons]
    refine List.Forall₂.cons ?_ ih
    rw [nmsMark]
    split_ifs <;> first | exact boxStep_refl bj | exact boxStep_suppress bj

lemma forall2_nmsScanFuel (fuel : ℕ) (l : List Box) :
    List.Forall₂ boxStep l (nmsScanFuel fuel l) := by
  induction fuel generalizing l with
  | zero => cases l <;> exact forall2_boxStep_refl _
  | succ fuel ih =>
    cases l with
    | nil => exact List.Forall₂.nil
    | cons b rest =>
      rw [nmsScanFuel]
      split_ifs
      · exact List.Forall₂.cons (boxStep_refl b) (ih rest)
      · exact List.Forall₂.cons (boxStep_refl b)
          (forall2_boxStep_trans (forall2_nmsInner b rest) (ih _))

lemma forall2_kbInner (bi : Box) (l : List Box) :
    List.Forall₂ boxStep l (kbInner bi l).2 := by
  induction l with
  | nil => exact List.Forall₂.nil
  | cons bj rest ih =>
    rw [kbInner]
    split_ifs
    · exact List.Forall₂.cons (boxStep_refl bj) ih
    · exact List.Forall₂.cons (boxStep_suppress bj) ih
    · exact List.Forall₂.cons (boxStep_refl bj) (forall2_boxStep_refl rest)

lemma forall2_kbLoop (fuel : ℕ) (l : List Box) :
    List.Forall₂ boxStep l (kbLoop fuel l) := by
  induction fuel generalizing l with
  | zero => cases l <;> exact forall2_boxStep_refl _
  | succ fuel ih =>
    cases l with
    | nil => exact List.Forall₂.nil
    | cons bi rest =>
      rw [kbLoop]
      split_ifs with h
      · exact List.Forall₂.cons (boxStep_refl bi) (ih rest)
      · refine List.Forall₂.cons ?_
          (forall2_boxStep_trans (forall2_kbInner bi rest) (ih _))
        split_ifs <;> first | exact boxStep_refl bi | exact boxStep_suppress bi

lemma bubblePass_perm (n : ℕ) (l : List Box) : (bubblePass l n).Perm l := by
  induction n generalizing l with
  | zero => rw [bubblePass]
  | succ n ih =>
    match l with
    | [] => rw [bubblePass]
    | [a] => rw [bubblePass]
    | a :: b :: rest =>
      rw [bubblePass]
      split_ifs
      · exact ((ih (a :: rest)).cons b).trans (List.Perm.swap a b rest)
      · exact (ih (b :: rest)).cons a

lemma sortPasses_perm (L : ℕ) (l : List Box) (k : ℕ) :
    (sortPasses L l k).Perm l := by
  induction k with
  | zero => rw [sortPasses]; rfl
  | succ k ih =>
    rw [sortPasses, List.range_succ, List.foldl_append]
    exact (bubblePass_perm _ _).trans ih

lemma sortByConfidence_perm (l : List Box) : (sortByConfidence l).Perm l :=
  sortPasses_perm l.length l (l.length - 1)

end Vision

/-- Claim C9: each of the four filter stages maps its input box array
to a permutation of the same boxes in which every box is either
unchanged or has had its suppressed flag turned from false to true
(`boxStep`); no stage clears a suppressed flag or alters coordinates,
label, or confidence, so the set of suppressed detections only grows
across stages 1–4. -/
theorem claim_C9 :
    (∀ (W H : ℕ) (l : List Vision.Box), ∃ l0, l.Perm l0 ∧
      List.Forall₂ Vision.boxStep l0 (Vision.filterInvalid W H l)) ∧
    (∀ l : List Vision.Box, ∃ l0, l.Perm l0 ∧
      List.Forall₂ Vision.boxStep l0 (Vision.removeContained l)) ∧
    (∀ l : List Vision.Box, ∃ l0, l.Perm l0 ∧
      List.Forall₂ Vision.boxStep l0 (Vision.applyNMS l)) ∧
    (∀ l : List Vision.Box, ∃ l0, l.Perm l0 ∧
      List.Forall₂ Vision.boxStep l0 (Vision.keepBestPerClass l)) := by
  refine ⟨fun W H l => ⟨l, List.Perm.refl l, Vision.forall2_filterInvalid W H l⟩,
    fun l => ⟨l, List.Perm.refl l, Vision.forall2_rcLoop 0 l.length l⟩,
    fun l => ⟨Vision.sortByConfidence l, (Vision.sortByConfidence_perm l).symm, ?_⟩,
    fun l => ⟨l, List.Perm.refl l, Vision.forall2_kbLoop l.length l⟩⟩
  exact Vision.forall2_nmsScanFuel _ _

namespace Vision

lemma mem_of_forall2_unsup {l0 l1 : List Box} {b : Box}
    (h : List.Forall₂ boxStep l0 l1) (hm : b ∈ l1) (hs : b.suppressed = false) :
    b ∈ l0 := by
  induction h with
  | nil => exact absurd hm (List.not_mem_nil b)
  | cons hab h ih =>
    rcases List.mem_cons.1 hm with he | ht
    · subst he
      rcases hab with hab | hab
      · exact hab ▸ List.mem_cons_self _ _
      · rw [hab] at hs
        simp at hs
    · exact List.mem_cons_of_mem _ (ih ht)

lemma filterInvalidOne_of_unsup (W H : ℕ) (a : Box)
    (h : (filterInvalidOne W H a).suppressed = false) :
    filterInvalidOne W H a = a := by
  rcases boxStep_filterInvalidOne W H a with he | he
  · exact he
  · rw [he] at h
    simp at h

lemma removeContained_singleton (x : Box) : removeContained [x] = [x] := by
  rcases hx : x.suppressed <;>
    simp [removeContained, rcLoop, rcInner, rcInnerAux, hx]

lemma applyNMS_singleton (x : Box) : applyNMS [x] = [x] := by
  rcases hx : x.suppressed <;>
    simp [applyNMS, nmsScan, sortByConfidence, nmsScanFuel, nmsInner, hx]

lemma keepBestPerClass_singleton (x : Box) : keepBestPerClass [x] = [x] := by
  rcases hx : x.suppressed <;>
    simp [keepBestPerClass, kbLoop, kbInner, hx]

end Vision

/-- Claim C7: the filtering pipeline is idempotent on its own output:
every detection that survives stages 1–4 unsuppressed passes all four
stages again unchanged when they are re-run on the array containing
only that survivor. -/
theorem claim_C7 (W H : ℕ) (l : List Vision.Box) (b : Vision.Box)
    (hmem : b ∈ Vision.runFilters W H l) (hsup : b.suppressed = false) :
    Vision.runFilters W H [b] = [b] := by
  have h4 : b ∈ Vision.applyNMS (Vision.removeContained (Vision.filterInvalid W H l)) :=
    Vision.mem_of_forall2_unsup (Vision.forall2_kbLoop _ _) hmem hsup
  have h3 : b ∈ Vision.sortByConfidence
      (Vision.removeContained (Vision.filterInvalid W H l)) :=
    Vision.mem_of_forall2_unsup (Vision.forall2_nmsScanFuel _ _) h4 hsup
  have h3' : b ∈ Vision.removeContained (Vision.filterInvalid W H l) :=
    (Vision.sortByConfidence_perm _).mem_iff.1 h3
  have h2 : b ∈ Vision.filterInvalid W H l :=
    Vision.mem_of_forall2_unsup (Vision.forall2_rcLoop 0 _ _) h3' hsup
  obtain ⟨a, _, hfa⟩ := List.mem_map.1 h2
  have ha' : Vision.filterInvalidOne W H a = a :=
    Vision.filterInvalidOne_of_unsup W H a (by rw [hfa]; exact hsup)
  have hab : a = b := by rw [← hfa, ha']
  subst hab
  rw [Vision.runFilters,
    show Vision.filterInvalid W H [a] = [Vision.filterInvalidOne W H a] from rfl, ha',
    Vision.removeContained_singleton, Vision.applyNMS_singleton,
    Vision.keepBestPerClass_singleton]

/-- Evaluation of the full pipeline on the three scenario boxes: the
0.95 box survives; the 0.9 and 0.8 boxes are suppressed (the output is
in descending-confidence order after stage 3's sort). -/
theorem runFilters_scenario :
    Vision.runFilters 96 96 Vision.scenarioBoxes =
      [Vision.box095, { Vision.box09 with suppressed := true },
        { Vision.box08 with suppressed := true }] := by
  norm_num [Vision.runFilters, Vision.filterInvalid, Vision.filterInvalidOne,
    Vision.Box.isValid, Vision.MIN_BOX_SIZE, Vision.MIN_CONFIDENCE,
    Vision.removeContained, Vision.rcLoop, Vision.rcInner, Vision.rcInnerAux,
    Vision.containedIn, Vision.applyNMS, Vision.nmsScan, Vision.nmsScanFuel,
    Vision.nmsInner, Vision.nmsMark, Vision.nmsTrigger, Vision.sameClass,
    Vision.calculateIoU,
    Vision.distanceSq, Vision.Box.area, Vision.Box.centerX, Vision.Box.centerY,
    Vision.NMS_IOU_THRESHOLD, Vision.SPATIAL_THRESHOLD, Vision.sortByConfidence,
    Vision.bubblePass, Vision.keepBestPerClass, Vision.kbLoop, Vision.kbInner,
    Vision.score, Vision.scenarioBoxes, Vision.box09, Vision.box08, Vision.box095,
    Vision.scenarioLabel, List.range_succ]

/-- Witness for C7: the 0.95 scenario box survives the full pipeline on
the three scenario boxes and is a fixed point of the pipeline run on
itself alone. -/
theorem claim_C7_witness :
    Vision.runFilters 96 96 [Vision.box095] = [Vision.box095] := by
  have hmem : Vision.box095 ∈ Vision.runFilters 96 96 Vision.scenarioBoxes := by
    rw [runFilters_scenario]
    exact List.mem_cons_self _ _
  exact claim_C7 96 96 Vision.scenarioBoxes Vision.box095 hmem rfl

namespace Vision

lemma bubblePass_length (n : ℕ) (l : List Box) :
    (bubblePass l n).length = l.length :=
  (bubblePass_perm n l).length_eq

lemma bubblePass_append (n : ℕ) (f t : List Box) (h : n ≤ f.length - 1) :
    bubblePass (f ++ t) n = bubblePass f n ++ t := by
  induction n generalizing f with
  | zero => rw [bubblePass, bubblePass]
  | succ n ih =>
    match f, h with
    | a :: b :: rest, h =>
      rw [List.cons_append, List.cons_append, bubblePass, bubblePass]
      have h' : n ≤ (b :: rest).length - 1 := by
        simp only [List.length_cons] at h ⊢
        omega
      split_ifs
      · rw [← List.cons_append, ih (a :: rest) (by simpa using h'), List.cons_append]
      · rw [← List.cons_append, ih (b :: rest) h', List.cons_append]

lemma bubblePass_min (n : ℕ) (f : List Box) (hne : f ≠ [])
    (hlen : f.length ≤ n + 1) :
    ∃ g m, bubblePass f n = g ++ [m] ∧ ∀ x ∈ f, m.confidence ≤ x.confidence := by
  induction n generalizing f with
  | zero =>
    rcases f with _ | ⟨a, f'⟩
    · exact absurd rfl hne
    · have hf' : f' = [] := by
        simp only [List.length_cons] at hlen
        exact List.length_eq_zero.1 (by omega)
      subst hf'
      exact ⟨[], a, rfl, fun x hx => by rw [List.mem_singleton.1 hx]⟩
  | succ n ih =>
    rcases f with _ | ⟨a, f'⟩
    · exact absurd rfl hne
    rcases f' with _ | ⟨b, rest⟩
    · exact ⟨[], a, rfl, fun x hx => by rw [List.mem_singleton.1 hx]⟩
    rw [bubblePass]
    have hlen' : ∀ c : Box, (c :: rest).length ≤ n + 1 := by
      intro c
      simp only [List.length_cons] at hlen ⊢
      omega
    split_ifs with hab
    · obtain ⟨g, m, heq, hmin⟩ := ih (a :: rest) (by simp) (hlen' a)
      refine ⟨b :: g, m, by rw [heq, List.cons_append], fun x hx => ?_⟩
      rcases List.mem_cons.1 hx with he | hx
      · rw [he]
        exact hmin a (List.mem_cons_self a rest)
      · rcases List.mem_cons.1 hx with he | hx
        · rw [he]
          exact le_of_lt (lt_of_le_of_lt (hmin a (List.mem_cons_self a rest)) hab)
        · exact hmin x (List.mem_cons_of_mem a hx)
    · obtain ⟨g, m, heq, hmin⟩ := ih (b :: rest) (by simp) (hlen' b)
      refine ⟨a :: g, m, by rw [heq, List.cons_append], fun x hx => ?_⟩
      rcases List.mem_cons.1 hx with he | hx
      · rw [he]
        exact le_trans (hmin b (List.mem_cons_self b rest)) (le_of_not_lt hab)
      · exact hmin x hx

lemma sortPasses_succ (L : ℕ) (l : List Box) (k : ℕ) :
    sortPasses L l (k + 1) = bubblePass (sortPasses L l k) (L - 1 - k) := by
  rw [sortPasses, sortPasses, List.range_succ, List.foldl_append]
  rfl

/-- Invariant of the bubble-sort outer loop: after `k` passes the array
splits into a front of length `L - k` and a sorted tail dominated by
the front. -/
lemma sortPasses_inv (l : List Box) (k : ℕ) (hk : k + 1 ≤ l.length) :
    ∃ f t, sortPasses l.length l k = f ++ t ∧ f.length = l.length - k ∧
      t.Sorted confGe ∧
      ∀ x ∈ f, ∀ y ∈ t, y.confidence ≤ x.confidence := by
  induction k with
  | zero =>
    exact ⟨l, [], by rw [List.append_nil]; rfl, by omega, List.sorted_nil, by simp⟩
  | succ k ih =>
    obtain ⟨f, t, heq, hlen, hsort, hdom⟩ := ih (by omega)
    have hfne : f ≠ [] := by
      intro he
      rw [he] at hlen
      simp at hlen
      omega
    have hb1 : l.length - 1 - k ≤ f.length - 1 := by omega
    have hb2 : f.length ≤ (l.length - 1 - k) + 1 := by omega
    obtain ⟨g, m, hgm, hmin⟩ := bubblePass_min (l.length - 1 - k) f hfne hb2
    have hperm : (bubblePass f (l.length - 1 - k)).Perm f := bubblePass_perm _ _
    have hmem : ∀ x ∈ g ++ [m], x ∈ f := fun x hx => hperm.mem_iff.1 (hgm ▸ hx)
    refine ⟨g, m :: t, ?_, ?_, ?_, ?_⟩
    · rw [sortPasses_succ, heq, bubblePass_append _ f t hb1, hgm, List.append_assoc,
        List.singleton_append]
    · have := bubblePass_length (l.length - 1 - k) f
      rw [hgm] at this
      simp only [List.length_append, List.length_singleton] at this
      omega
    · rw [List.sorted_cons]
      refine ⟨fun y hy => ?_, hsort⟩
      exact hdom m (hmem m (by simp)) y hy
    · intro x hx y hy
      have hxf : x ∈ f := hmem x (List.mem_append_left [m] hx)
      rcases List.mem_cons.1 hy with he | hy
      · subst he
        exact hmin x hxf
      · exact hdom x hxf y hy

/-- `sortByConfidence` sorts by descending confidence. -/
lemma sortByConfidence_sorted (l : List Box) :
    (sortByConfidence l).Sorted confGe := by
  rcases hL : l.length with _ | n
  · rw [List.length_eq_zero] at hL
    subst hL
    exact List.sorted_nil
  · have hk : (l.length - 1) + 1 ≤ l.length := by omega
    obtain ⟨f, t, heq, hlen, hsort, hdom⟩ := sortPasses_inv l (l.length - 1) hk
    have hf1 : f.length = 1 := by omega
    obtain ⟨x, hx⟩ := List.length_eq_one.1 hf1
    subst hx
    rw [show sortByConfidence l = sortPasses l.length l (l.length - 1) from rfl, heq,
      List.singleton_append, List.sorted_cons]
    exact ⟨fun y hy => hdom x (List.mem_singleton_self x) y hy, hsort⟩

end Vision

namespace Vision

lemma sameBoxData_refl (b : Box) : sameBoxData b b :=
  ⟨rfl, rfl, rfl, rfl, rfl, rfl⟩

lemma sameBoxData_trans {a b c : Box} (h1 : sameBoxData a b) (h2 : sameBoxData b c) :
    sameBoxData a c :=
  ⟨h1.1.trans h2.1, h1.2.1.trans h2.2.1, h1.2.2.1.trans h2.2.2.1,
    h1.2.2.2.1.trans h2.2.2.2.1, h1.2.2.2.2.1.trans h2.2.2.2.2.1,
    h1.2.2.2.2.2.trans h2.2.2.2.2.2⟩

lemma sameBoxData_mark (b bj : Box) : sameBoxData bj (nmsMark b bj) := by
  rw [nmsMark]
  split_ifs
  · exact ⟨rfl, rfl, rfl, rfl, rfl, rfl⟩
  · exact sameBoxData_refl bj

/-- The NMS trigger only reads geometry, confidence and label, so
marking does not change it. -/
lemma nmsTrigger_mark (bi b bj : Box) :
    nmsTrigger bi (nmsMark b bj) = nmsTrigger bi bj := by
  rw [nmsMark]
  split_ifs <;> rfl

lemma nmsMark_suppressed (b bj : Box) :
    (nmsMark b bj).suppressed = (bj.suppressed || nmsTrigger b bj) := by
  rw [nmsMark]
  rcases hs : bj.suppressed <;> rcases ht : nmsTrigger b bj <;> simp [hs, ht]

/-- Characterisation of the greedy NMS scan: a box ends suppressed
exactly when it was already suppressed or some earlier box that
survives the scan unsuppressed triggers against it; and the scan never
changes any other field. -/
lemma nmsScanFuel_spec (fuel : ℕ) (s : List Box) (hf : s.length ≤ fuel)
    (j : ℕ) (bj bo : Box) (hs : s.get? j = some bj)
    (ho : (nmsScanFuel fuel s).get? j = some bo) :
    sameBoxData bj bo ∧
    (bo.suppressed = true ↔ (bj.suppressed = true ∨ ∃ i bi, i < j ∧
      (nmsScanFuel fuel s).get? i = some bi ∧ bi.suppressed = false ∧
      nmsTrigger bi bj = true)) := by
  induction fuel generalizing s j bj bo with
  | zero =>
    rw [List.eq_nil_of_length_eq_zero (Nat.le_zero.1 hf)] at hs
    exact absurd hs (by simp)
  | succ fuel ih =>
    rcases s with _ | ⟨b, rest⟩
    · exact absurd hs (by simp)
    rcases hb : b.suppressed with _ | _
    · have hscan : nmsScanFuel (fuel + 1) (b :: rest) =
          b :: nmsScanFuel fuel (nmsInner b rest) := by
        rw [nmsScanFuel, if_neg (by rw [hb]; exact Bool.false_ne_true)]
      rw [hscan] at ho ⊢
      rcases j with _ | j
      · rw [List.get?_cons_zero, Option.some_inj] at hs ho
        subst hs
        subst ho
        refine ⟨sameBoxData_refl b, ⟨fun h => Or.inl h, fun h => ?_⟩⟩
        rcases h with h | ⟨i, bi, hi, _, _, _⟩
        · exact h
        · exact absurd hi (Nat.not_lt_zero i)
      · rw [List.get?_cons_succ] at hs ho
        have hs' : (nmsInner b rest).get? j = some (nmsMark b bj) := by
          rw [nmsInner, List.get?_map, hs, Option.map_some']
        have hlen' : (nmsInner b rest).length ≤ fuel := by
          rw [nmsInner, List.length_map]
          simp only [List.length_cons] at hf
          omega
        obtain ⟨hdata, hiff⟩ := ih (nmsInner b rest) hlen' j (nmsMark b bj) bo hs' ho
        rw [nmsMark_suppressed] at hiff
        refine ⟨sameBoxData_trans (sameBoxData_mark b bj) hdata, ?_, ?_⟩
        · intro h
          rcases hiff.1 h with h' | ⟨i, bi, hi, hgi, hbi, htr⟩
          · rcases Bool.or_eq_true_iff.1 h' with h1 | h1
            · exact Or.inl h1
            · exact Or.inr ⟨0, b, Nat.succ_pos j, List.get?_cons_zero, hb, h1⟩
          · rw [nmsTrigger_mark] at htr
            exact Or.inr ⟨i + 1, bi, Nat.succ_lt_succ hi,
              by rw [List.get?_cons_succ]; exact hgi, hbi, htr⟩
        · intro h
          rcases h with h | ⟨i, bi, hi, hgi, hbi, htr⟩
          · exact hiff.2 (Or.inl (by simp [h]))
          · rcases i with _ | i
            · rw [List.get?_cons_zero, Option.some_inj] at hgi
              subst hgi
              exact hiff.2 (Or.inl (by simp [htr]))
            · rw [List.get?_cons_succ] at hgi
              exact hiff.2 (Or.inr ⟨i, bi, Nat.lt_of_succ_lt_succ hi, hgi, hbi,
                by rw [nmsTrigger_mark]; exact htr⟩)
    · have hscan : nmsScanFuel (fuel + 1) (b :: rest) =
          b :: nmsScanFuel fuel rest := by
        rw [nmsScanFuel, if_pos hb]
      rw [hscan] at ho ⊢
      rcases j with _ | j
      · rw [List.get?_cons_zero, Option.some_inj] at hs ho
        subst hs
        subst ho
        refine ⟨sameBoxData_refl b, ⟨fun h => Or.inl h, fun _ => hb⟩⟩
      · rw [List.get?_cons_succ] at hs ho
        have hlen' : rest.length ≤ fuel := by
          simp only [List.length_cons] at hf
          omega
        obtain ⟨hdata, hiff⟩ := ih rest hlen' j bj bo hs ho
        refine ⟨hdata, ?_, ?_⟩
        · intro h
          rcases hiff.1 h with h' | ⟨i, bi, hi, hgi, hbi, htr⟩
          · exact Or.inl h'
          · exact Or.inr ⟨i + 1, bi, Nat.succ_lt_succ hi,
              by rw [List.get?_cons_succ]; exact hgi, hbi, htr⟩
        · intro h
          rcases h with h | ⟨i, bi, hi, hgi, hbi, htr⟩
          · exact hiff.2 (Or.inl h)
          · rcases i with _ | i
            · rw [List.get?_cons_zero, Option.some_inj] at hgi
              subst hgi
              rw [hb] at hbi
              exact absurd hbi (by simp)
            · rw [List.get?_cons_succ] at hgi
              exact hiff.2 (Or.inr ⟨i, bi, Nat.lt_of_succ_lt_succ hi, hgi, hbi, htr⟩)

end Vision

/-- Claim C6: `applyNMS` first sorts the box array by descending
confidence (a permutation, sorted under `confGe`), then scans in that
order suppressing exactly the later same-class boxes that trigger (IoU
above 0.2 or center distance below 60) against an earlier box that
survives the scan unsuppressed; in particular, on the three overlapping
same-class scenario boxes with confidences 0.9, 0.8, 0.95, the single
unsuppressed survivor of the full pipeline — and the emitted result —
is the 0.95 box. -/
theorem claim_C6 :
    (∀ l : List Vision.Box, (Vision.sortByConfidence l).Perm l) ∧
    (∀ l : List Vision.Box, (Vision.sortByConfidence l).Sorted Vision.confGe) ∧
    (∀ l : List Vision.Box,
      Vision.applyNMS l = Vision.nmsScan (Vision.sortByConfidence l)) ∧
    (∀ (s : List Vision.Box) (j : ℕ) (bj bo : Vision.Box),
      s.get? j = some bj → (Vision.nmsScan s).get? j = some bo →
      Vision.sameBoxData bj bo ∧
      (bo.suppressed = true ↔ (bj.suppressed = true ∨ ∃ i bi, i < j ∧
        (Vision.nmsScan s).get? i = some bi ∧ bi.suppressed = false ∧
        Vision.nmsTrigger bi bj = true))) ∧
    (Vision.runFilters 96 96 Vision.scenarioBoxes).filter
        (fun b => !b.suppressed) = [Vision.box095] ∧
    Vision.emitResult 96 96 Vision.scenarioBoxes = some Vision.box095 := by
  refine ⟨Vision.sortByConfidence_perm, Vision.sortByConfidence_sorted,
    fun l => rfl,
    fun s j bj bo hs ho =>
      Vision.nmsScanFuel_spec s.length s le_rfl j bj bo hs ho, ?_, ?_⟩
  · rw [runFilters_scenario]
    rfl
  · rw [Vision.emitResult, runFilters_scenario]
    rfl

/-- Witness for C6: the scan characterisation applied to the singleton
list of the 0.95 box at index 0. -/
theorem claim_C6_witness :
    Vision.sameBoxData Vision.box095 Vision.box095 ∧
      (Vision.box095.suppressed = true ↔ (Vision.box095.suppressed = true ∨
        ∃ i bi, i < 0 ∧ (Vision.nmsScan [Vision.box095]).get? i = some bi ∧
          bi.suppressed = false ∧ Vision.nmsTrigger bi Vision.box095 = true)) :=
  claim_C6.2.2.2.1 [Vision.box095] 0 Vision.box095 Vision.box095 rfl rfl
